import Mathlib

/-!
Verification of the smach member-usage validator
(`src/smach/src/smach/state_checks.py` and `src/smach/src/smach/state.py`).

Python strings are modelled as `List Char` (`Str`).  The only line-break
character modelled is `'\n'`; Python's `str.splitlines` also splits on a
handful of exotic characters (`\r`, `\x0b`, ...) which never occur in the
fragments the claims are about, and theorems that quantify over all inputs
carry an explicit hypothesis excluding them where it matters.
-/

namespace Smach

instance {ε α : Type} [DecidableEq ε] [DecidableEq α] : DecidableEq (Except ε α) := fun
  | .ok a, .ok b =>
    if h : a = b then .isTrue (by rw [h]) else .isFalse (by intro hc; cases hc; exact h rfl)
  | .error a, .error b =>
    if h : a = b then .isTrue (by rw [h]) else .isFalse (by intro hc; cases hc; exact h rfl)
  | .ok _, .error _ => .isFalse (by intro hc; cases hc)
  | .error _, .ok _ => .isFalse (by intro hc; cases hc)

abbrev Str := List Char

/-- Shorthand: embed a Lean string literal as a `List Char`. -/
def str (s : String) : Str := s.toList

/-- Python whitespace, as recognised by `str.strip` / `str.lstrip`. -/
def isPyWhite (c : Char) : Bool :=
  c = ' ' || c = '\t' || c = '\n' || c = '\r' || c = '\x0b' || c = '\x0c'

/-- `s.splitlines(True)` restricted to `'\n'` terminators: each line keeps
its trailing newline; a final fragment without a newline is kept as-is. -/
def splitKeep : Str → List Str
  | [] => []
  | c :: cs =>
    if c = '\n' then ['\n'] :: splitKeep cs
    else
      match splitKeep cs with
      | [] => [[c]]
      | l :: ls => (c :: l) :: ls

/-- Drop a single trailing newline from a line, if present. -/
def stripNL (l : Str) : Str :=
  if l.getLast? = some '\n' then l.dropLast else l

/-- `s.splitlines(False)`: the lines of `splitKeep` without their
terminators. -/
def splitNoKeep (s : Str) : List Str := (splitKeep s).map stripNL

/-- `line.strip()` is empty, i.e. the line consists of whitespace only. -/
def isBlank (l : Str) : Bool := l.all isPyWhite

/-- `len(line) - len(line.lstrip())`: the number of leading whitespace
characters of a line. -/
def countLeadingWhite (l : Str) : Nat := (l.takeWhile isPyWhite).length

/-- `line.rstrip()`. -/
def rstripLine (l : Str) : Str := (l.reverse.dropWhile isPyWhite).reverse

/-- `sep.join(parts)` (Python `str.join`). -/
def joinStr (sep : Str) : List Str → Str
  | [] => []
  | [x] => x
  | x :: y :: xs => x ++ sep ++ joinStr sep (y :: xs)

/-- Run an `Except`-valued function over every line, propagating the first
error, as Python's eager `map(aux, ...)` does when `aux` raises. -/
def mapLines (f : Str → Except Str Str) : List Str → Except Str (List Str)
  | [] => .ok []
  | l :: ls => do
    let x ← f l
    let xs ← mapLines f ls
    .ok (x :: xs)

/-! ### `state_checks.py` whitespace functions -/

/-- The per-line worker `aux` of `state_checks.del_spaces`: a non-blank
line must start with `numDel` spaces (else `ValueError`), blank lines pass
through untouched. -/
def delSpacesAux (numDel : Nat) (line : Str) : Except Str Str :=
  if ¬ isBlank line ∧ line.take numDel ≠ List.replicate numDel ' ' then
    .error (str "removing more spaces than there are!")
  else
    .ok (if ¬ isBlank line then line.drop numDel else line)

/-- `state_checks.del_spaces`: delete `numDel` leading spaces from every
non-blank line of `s` (`''.join(map(aux, s.splitlines(True)))`). -/
def del_spaces (s : Str) (numDel : Nat) : Except Str Str :=
  (mapLines (delSpacesAux numDel) (splitKeep s)).map List.flatten

/-- `num_spaces` (identical in both `state.py` and `state_checks.py`):
leading-whitespace count per line of `s.splitlines(False)`. -/
def num_spaces (s : Str) : List Nat := (splitNoKeep s).map countLeadingWhite

/-- `state_checks.unindent_block`: reject tabs anywhere in the input, then
delete `min(num_spaces("\n".join([l for l in s.splitlines() if l])))`
leading spaces (Python's `min` raises on an empty sequence, modelled as an
error).  The tab error's text carries `repr(s)` in Python; the claims do
not depend on that rendering. -/
def unindent_block (s : Str) : Except Str Str :=
  if '\t' ∈ s then .error (str "No tabs allowed: " ++ s)
  else
    match (num_spaces (joinStr (str "\n") ((splitNoKeep s).filter (fun l => l ≠ [])))).min? with
    | none => .error (str "min() arg is an empty sequence")
    | some m => del_spaces s m

/-! ### `state.py` whitespace functions (the duplicated revision) -/

/-- The per-line worker of `state.del_spaces`: the blank-line test is
`line != "\n"` instead of `line.strip()`. -/
def delSpacesStateAux (numDel : Nat) (line : Str) : Except Str Str :=
  if line ≠ str "\n" ∧ line.take numDel ≠ List.replicate numDel ' ' then
    .error (str "removing more spaces than there are!")
  else
    .ok (if line ≠ str "\n" then line.drop numDel else line)

/-- `state.del_spaces`. -/
def del_spaces_state (s : Str) (numDel : Nat) : Except Str Str :=
  (mapLines (delSpacesStateAux numDel) (splitKeep s)).map List.flatten

/-- `state.unindent_block`: no tab check; the amount removed is
`min([x for x in num_spaces(s) if x > 0])`. -/
def unindent_block_state (s : Str) : Except Str Str :=
  match ((num_spaces s).filter (fun x => decide (0 < x))).min? with
  | none => .error (str "min() arg is an empty sequence")
  | some m => del_spaces_state s m

/-! ### Tab expansion and the analyser's normalisation entry point -/

/-- `str.expandtabs(tabSize)`: replace each tab by spaces up to the next
multiple of `tabSize`, resetting the column on line breaks. -/
def expandTabsAux (tabSize : Nat) : Nat → Str → Str
  | _, [] => []
  | col, c :: cs =>
    if c = '\t' then
      let k := tabSize - col % tabSize
      List.replicate k ' ' ++ expandTabsAux tabSize (col + k) cs
    else if c = '\n' ∨ c = '\r' then c :: expandTabsAux tabSize 0 cs
    else c :: expandTabsAux tabSize (col + 1) cs

def expandTabs (tabSize : Nat) (s : Str) : Str := expandTabsAux tabSize 0 s

/-- `"\n".join(map(str.rstrip, execute_code[1:]))` from
`StateAttributeAnalyser.__init__` / `State.check_member_variables`:
the routine's body lines, right-stripped and newline-joined. -/
def bodyText (lines : List Str) : Str := joinStr (str "\n") (lines.map rstripLine)

/-- The normalisation performed by `StateAttributeAnalyser.__init__`
(`state_checks.py` line 114): `unindent_block(text.expandtabs(4))`. -/
def analyserNormalize (lines : List Str) : Except Str Str :=
  unindent_block (expandTabs 4 (bodyText lines))

/-- The normalisation performed by `State.check_member_variables`
(`state.py` line 223): `unindent_block(text)` with the `state.py`
revision, no tab handling at all. -/
def stateNormalize (lines : List Str) : Except Str Str :=
  unindent_block_state (bodyText lines)

/-- Modelled from the spec's words for claim C4 only (not from the
source): remove the minimum leading-space count taken among all
NON-BLANK lines from every non-blank line, blank lines unchanged. -/
def unindentClaimed (s : Str) : Option Str :=
  match (((splitNoKeep s).filter (fun l => isBlank l = false)).map countLeadingWhite).min? with
  | none => none
  | some m =>
    some (((splitKeep s).map (fun l => if isBlank l then l else l.drop m)).flatten)

/-! ### The analyser: syntax trees, receiver rewriting, walking, checking

The walker/check/report code is duplicated verbatim between
`state_checks.StateAttributeAnalyser` and `state.StateAttributeAnalyser`
(only `_file_line_error` carries an extra unused argument in `state.py`);
one embedding serves both.  Expression nodes carry their own `lineno`, as
`ast.expr` nodes do; the analyser reads only statement linenos.
Constructor field order mirrors `ast`'s `_fields` order, which the
"first field" behaviour of the traversal depends on.  `Call`'s
`keywords`/`starargs`/`kwargs` fields and the `ctx` fields are omitted:
the traversal never reaches past a node's first field, and `ctx` carries
no data.  Literal node kinds other than strings are omitted; no claim
touches them. -/

mutual
inductive Exp : Type where
  | name (lineno : Nat) (id : List Char)
  | attr (lineno : Nat) (value : Exp) (attrName : List Char)
  | call (lineno : Nat) (func : Exp) (args : Args)
  | strLit (lineno : Nat) (lit : List Char)
inductive Args : Type where
  | nil
  | cons (head : Exp) (tail : Args)
end

/-- Statement nodes: expression statements and assignments
(`_fields = ('targets', 'value')`). -/
inductive Stm : Type where
  | exprStmt (lineno : Nat) (value : Exp)
  | assign (lineno : Nat) (targets : List Exp) (value : Exp)

def Stm.lineno : Stm → Nat
  | .exprStmt ln _ => ln
  | .assign ln _ _ => ln

mutual
/-- `StateCodeTransformer`: every `Name` node `self` becomes the
attribute access `self._state` (`ast.copy_location` keeps the lineno);
`NodeTransformer.generic_visit` recurses into every other node. -/
def transformE : Exp → Exp
  | .name ln id => if id = str "self" then .attr ln (.name ln (str "self")) (str "_state") else .name ln id
  | .attr ln v a => .attr ln (transformE v) a
  | .call ln f args => .call ln (transformE f) (transformArgs args)
  | .strLit ln s => .strLit ln s
def transformArgs : Args → Args
  | .nil => .nil
  | .cons e es => .cons (transformE e) (transformArgs es)
end

/-- `isinstance(node.value, ast.Name) and node.value.id == "self"`. -/
def selfName : Exp → Bool
  | .name _ id => id == str "self"
  | _ => false

mutual
/-- `StateCodeReverseTransformer`: an attribute access `self._state`
collapses back to the bare `self` name (returned without further
recursion, as the transformer returns `node.value` directly); everything
else is rewritten recursively. -/
def reverseE : Exp → Exp
  | .name ln id => .name ln id
  | .attr ln v a => if a = str "_state" ∧ selfName v then v else .attr ln (reverseE v) a
  | .call ln f args => .call ln (reverseE f) (reverseArgs args)
  | .strLit ln s => .strLit ln s
def reverseArgs : Args → Args
  | .nil => .nil
  | .cons e es => .cons (reverseE e) (reverseArgs es)
end

mutual
/-- `astor.to_source(...).strip()` on the node kinds above (string
literals are rendered single-quoted; escapes are not modelled). -/
def astUnparseRaw : Exp → Str
  | .name _ id => id
  | .attr _ v a => astUnparseRaw v ++ str "." ++ a
  | .call _ f args => astUnparseRaw f ++ str "(" ++ unparseArgs args ++ str ")"
  | .strLit _ s => str "'" ++ s ++ str "'"
def unparseArgs : Args → Str
  | .nil => []
  | .cons e .nil => astUnparseRaw e
  | .cons e (.cons e₂ es) => astUnparseRaw e ++ str ", " ++ unparseArgs (.cons e₂ es)
end

/-- `StateAttributeAnalyser._ast_unparse`: reverse the receiver rewrite
on a copy of the sub-tree, then render it. -/
def astUnparse (e : Exp) : Str := astUnparseRaw (reverseE e)

def natStr (n : Nat) : Str := (Nat.repr n).toList

/-- `StateAttributeAnalyser._file_line_error`:
`'\n  File "{0}", line {1}\n\t'`. -/
def fileLineError (fname : Str) (n : Nat) : Str :=
  str "\n  File \"" ++ fname ++ str "\", line " ++ natStr n ++ str "\n\t"

/-- The test of a synthesized assertion: `hasattr(<obj>, '<attr>')` from
`visit_Attribute`, or `callable(<func>) == True` from `visit_Call`
(`== True` on a `callable` result is just callability). -/
inductive ChkTest : Type where
  | attrTest (objE : Exp) (attrName : List Char)
  | callableTest (funcE : Exp)

/-- One entry of `self._lines`: the assertion to evaluate, its message
and the statement line recorded with it (`_add_expr` also stores the
column offset, which nothing ever reads; it is omitted). -/
structure Chk where
  test : ChkTest
  msg : Str
  lineno : Nat

deriving instance DecidableEq for Exp
deriving instance DecidableEq for Stm
deriving instance DecidableEq for ChkTest
deriving instance DecidableEq for Chk

/-- The two message formats of §6 of the spec: a check's message is the
file/line header followed by either the missing-attribute or the
not-callable sentence. -/
def msgShapeOK (fname : Str) (c : Chk) : Prop :=
  (∃ e a, c.msg = fileLineError fname c.lineno ++ str "'" ++ e ++
    str "' has no attribute '" ++ a ++ str "'") ∨
  (∃ e, c.msg = fileLineError fname c.lineno ++ str "'" ++ e ++
    str "' object is not callable")

/-- The exact message discipline of a check emitted while walking a
receiver-rewritten tree, with both holes pinned to the pre-rewrite
source.  Each check is one of:
the inserted receiver-indirection lookup, whose `<expr>` hole renders
the receiver as originally written and whose `<name>` hole is the
indirection attribute `_state`;
an attribute check, whose test stores the rewritten form `transformE v`
of the accessed object expression `v`, whose `<expr>` hole is the
pre-rewrite rendering `astUnparseRaw v` of exactly that expression
(`_ast_unparse`'s reverse transform undoes the rewrite), and whose
`<name>` hole is the accessed attribute of the test;
a callability check, whose test stores the rewritten callee
`transformE f` and whose hole renders the full pre-rewrite call
expression with that same callee. -/
def msgPinOK (fname : Str) (c : Chk) : Prop :=
  (∃ ln', c.test = .attrTest (.name ln' (str "self")) (str "_state") ∧
    c.msg = fileLineError fname c.lineno ++ str "'" ++
      astUnparseRaw (.name ln' (str "self")) ++
      str "' has no attribute '" ++ str "_state" ++ str "'") ∨
  (∃ v a, c.test = .attrTest (transformE v) a ∧
    c.msg = fileLineError fname c.lineno ++ str "'" ++ astUnparseRaw v ++
      str "' has no attribute '" ++ a ++ str "'") ∨
  (∃ cl f args, c.test = .callableTest (transformE f) ∧
    c.msg = fileLineError fname c.lineno ++ str "'" ++
      astUnparseRaw (.call cl f args) ++ str "' object is not callable")

/-- The analyser's `visit` dispatch on an expression node, returning
(this subtree mentions the receiver, checks appended in order).  The
ambient `ln` is `_recent_lineno`: expression nodes never update it
(`_visit_item` updates only on `ast.stmt`).  `generic_visit`,
`visit_Attribute` and `visit_Call` all `return` during the first
iteration of their field loop, so only each node's FIRST field is
traversed: an attribute's `value`, a call's `func` — a call's `args` are
never visited.  `visit_Name` reports whether the name is `self`;
a string literal's first field is not an AST node, so `generic_visit`
returns `None` (falsy). -/
def visitE (fname : Str) (ln : Nat) : Exp → Bool × List Chk
  | .name _ id => (id == str "self", [])
  | .attr _ v a =>
    let c : Chk :=
      { test := .attrTest v a,
        msg := fileLineError fname ln ++ str "'" ++ astUnparse v ++
          str "' has no attribute '" ++ a ++ str "'",
        lineno := ln }
    let r := visitE fname ln v
    (r.1, if r.1 then r.2 ++ [c] else r.2)
  | .call cl f args =>
    let c : Chk :=
      { test := .callableTest f,
        msg := fileLineError fname ln ++ str "'" ++ astUnparse (.call cl f args) ++
          str "' object is not callable",
        lineno := ln }
    let r := visitE fname ln f
    (r.1, if r.1 then r.2 ++ [c] else r.2)
  | .strLit _ _ => (false, [])

/-- Visiting one statement via `_visit_item`: `_recent_lineno` becomes
`stmt.lineno + line_offset` for the whole subtree.  An `Expr` statement's
single field is visited; an `Assign`'s FIRST field is the `targets` list,
which `generic_visit` folds over (returning `any(outputs)`) — its
`value` (the right-hand side) is never reached. -/
def visitStmt (fname : Str) (off : Nat) : Stm → Bool × List Chk
  | .exprStmt ln e => visitE fname (ln + off) e
  | .assign ln targets _ =>
    let rs := targets.map (visitE fname (ln + off))
    (rs.any (·.1), (rs.map (·.2)).flatten)

def transformStmt : Stm → Stm
  | .exprStmt ln e => .exprStmt ln (transformE e)
  | .assign ln ts v => .assign ln (ts.map transformE) (transformE v)

/-- The checks collected for one (receiver-rewritten) statement. -/
def stmtChecks (fname : Str) (off : Nat) (st : Stm) : List Chk :=
  (visitStmt fname off (transformStmt st)).2

/-- All checks collected by `analyse`'s walk over the rewritten module
body, in emission order. -/
def analyserChecks (fname : Str) (off : Nat) (body : List Stm) : List Chk :=
  (body.map (stmtChecks fname off)).flatten

/-! #### Evaluation of the synthesized assertions (`_compile`) -/

/-- Python values, as far as the checks can observe them: objects with a
class name and an attribute dictionary, callables (returning `ret` when
called), and strings (never callable, no attributes modelled). -/
inductive PyVal : Type where
  | obj (cls : List Char) (attrs : List (List Char × PyVal))
  | func (ret : PyVal)
  | pstr (lit : List Char)

def lookupAttr : PyVal → Str → Option PyVal
  | .obj _ attrs, a => (attrs.find? (fun p => p.1 == a)).map (·.2)
  | _, _ => none

def clsName : PyVal → Str
  | .obj c _ => c
  | .func _ => str "function"
  | .pstr _ => str "str"

def isCallable : PyVal → Bool
  | .func _ => true
  | _ => false

/-- The `exec` environment of `_compile`: `self` is the analyser, whose
`_state` attribute is the subject under validation. -/
def analyserOf (st : PyVal) : PyVal :=
  .obj (str "StateAttributeAnalyser") [(str "_state", st)]

mutual
/-- Evaluation of an expression inside a compiled check, in the frame
where `self` is the analyser.  A failed attribute lookup raises
`AttributeError` with Python's own message; calling a non-callable
raises `TypeError` (after the callee and arguments are evaluated); an
unbound bare name raises `NameError`. -/
def evalE (st : PyVal) : Exp → Except Str PyVal
  | .name _ id =>
    if id == str "self" then .ok (analyserOf st)
    else .error (str "name '" ++ id ++ str "' is not defined")
  | .attr _ v a =>
    match evalE st v with
    | .error e => .error e
    | .ok x =>
      match lookupAttr x a with
      | some y => .ok y
      | none => .error (str "'" ++ clsName x ++ str "' object has no attribute '" ++ a ++ str "'")
  | .call _ f args =>
    match evalE st f with
    | .error e => .error e
    | .ok g =>
      match evalArgs st args with
      | .error e => .error e
      | .ok _ =>
        match g with
        | .func r => .ok r
        | v => .error (str "'" ++ clsName v ++ str "' object is not callable")
  | .strLit _ s => .ok (.pstr s)
def evalArgs (st : PyVal) : Args → Except Str PyVal
  | .nil => .ok (.pstr [])
  | .cons e es =>
    match evalE st e with
    | .error err => .error err
    | .ok _ => evalArgs st es
end

/-- The expression a check's test evaluates (`hasattr`'s first argument,
or `callable`'s argument). -/
def ChkTest.scrut : ChkTest → Exp
  | .attrTest objE _ => objE
  | .callableTest funcE => funcE

/-- Running one compiled check under `exec`: `None` when the assert
passes; otherwise the raised exception's message — the assert's own
`msg` when the test evaluates falsy, or the propagated runtime error's
message when evaluating the test's argument raises. -/
def evalChk (st : PyVal) (c : Chk) : Option Str :=
  match c.test with
  | .attrTest objE a =>
    match evalE st objE with
    | .error e => some e
    | .ok v => if (lookupAttr v a).isSome then none else some c.msg
  | .callableTest fE =>
    match evalE st fE with
    | .error e => some e
    | .ok v => if isCallable v then none else some c.msg

/-- The messages of the exceptions collected by `_compile`'s loop, in
check order (`except Exception` catches each one individually and the
loop continues). -/
def validateMsgs (st : PyVal) (checks : List Chk) : List Str :=
  checks.filterMap (evalChk st)

/-- The collected failures paired with the line recorded for the check. -/
def validateFailures (st : PyVal) (checks : List Chk) : List (Nat × Str) :=
  checks.filterMap (fun c => (evalChk st c).map (fun m => (c.lineno, m)))

/-- `_compile`'s outcome: `none` when no exception was collected,
otherwise the single aggregated `AssertionError` text
`"\nIncorrect call(s):" + "\n".join(messages)`. -/
def compileResult (st : PyVal) (checks : List Chk) : Option Str :=
  let excs := validateMsgs st checks
  if excs = [] then none
  else some (str "\nIncorrect call(s):" ++ joinStr (str "\n") excs)

/-- A `State` as `check_member_variables` sees it: its live attribute
dictionary plus the `_member_variables_checked` flag (class default
`False`). -/
structure StateRec where
  cls : List Char
  attrs : List (List Char × PyVal)
  memberVariablesChecked : Bool

def subjectVal (s : StateRec) : PyVal := .obj s.cls s.attrs

/-- `State.check_member_variables` (`state.py` lines 218-229), starting
from the parsed body of `execute` (source retrieval and parsing are the
host's): walk the rewritten tree, compile and evaluate the checks; on
success set `_member_variables_checked = True`, on failure the aggregated
error propagates before the flag assignment runs, leaving the record
untouched. -/
def check_member_variables (s : StateRec) (fname : Str) (off : Nat) (body : List Stm) :
    Option Str × StateRec :=
  match compileResult (subjectVal s) (analyserChecks fname off body) with
  | none => (none, { s with memberVariablesChecked := true })
  | some m => (some m, s)

/-! ### Structural lemmas about line splitting -/

theorem splitKeep_flatten (s : Str) : (splitKeep s).flatten = s := by
  induction s with
  | nil => rfl
  | cons c cs ih =>
    by_cases h : c = '\n'
    · subst h
      simp only [splitKeep]
      simp [ih]
    · simp only [splitKeep, if_neg h]
      cases hsk : splitKeep cs with
      | nil =>
        rw [hsk] at ih
        simp only [List.flatten_nil] at ih
        simp [← ih]
      | cons l ls =>
        rw [hsk] at ih
        simpa [List.flatten_cons] using congrArg (c :: ·) ih

theorem stripNL_concat_newline (x : Str) : stripNL (x ++ ['\n']) = x := by
  unfold stripNL
  rw [if_pos (by simp [List.getLast?_concat]), List.dropLast_concat]

theorem stripNL_of_no_newline (x : Str) (hnl : '\n' ∉ x) : stripNL x = x := by
  rcases x.eq_nil_or_concat with rfl | ⟨l', b, rfl⟩
  · rfl
  · rw [List.concat_eq_append] at hnl ⊢
    have hb : (l' ++ [b]).getLast? ≠ some '\n' := by
      rw [List.getLast?_concat]
      intro hc
      cases hc
      exact hnl (by simp)
    unfold stripNL
    rw [if_neg hb]

theorem stripNL_eq_or (l : Str) : l = stripNL l ∨ l = stripNL l ++ ['\n'] := by
  by_cases h : l.getLast? = some '\n'
  · right
    rcases l.eq_nil_or_concat with rfl | ⟨l', b, rfl⟩
    · simp at h
    · rw [List.concat_eq_append] at h ⊢
      rw [List.getLast?_concat, Option.some.injEq] at h
      subst h
      rw [stripNL_concat_newline]
  · left
    unfold stripNL
    rw [if_neg h]

theorem newline_not_mem_stripNL (s : Str) : ∀ l ∈ splitKeep s, '\n' ∉ stripNL l := by
  induction s with
  | nil => intro l hl; simp [splitKeep] at hl
  | cons c cs ih =>
    by_cases h : c = '\n'
    · subst h
      intro l hl
      simp only [splitKeep] at hl
      rw [if_pos (by decide)] at hl
      rcases List.mem_cons.mp hl with rfl | hl
      · simp [stripNL]
      · exact ih l hl
    · intro l hl
      cases hsk : splitKeep cs with
      | nil =>
        simp only [splitKeep, if_neg h, hsk, List.mem_singleton] at hl
        subst hl
        have hnl : '\n' ∉ [c] := by simpa [eq_comm] using h
        rw [stripNL_of_no_newline _ hnl]
        exact hnl
      | cons l₀ ls =>
        simp only [splitKeep, if_neg h, hsk, List.mem_cons] at hl
        rcases hl with rfl | hl
        · cases l₀ with
          | nil =>
            have hnl : '\n' ∉ [c] := by simpa [eq_comm] using h
            rw [stripNL_of_no_newline _ hnl]
            exact hnl
          | cons d ds =>
            have h₀ : '\n' ∉ stripNL (d :: ds) := ih _ (by rw [hsk]; exact List.mem_cons_self _ _)
            have hcons : stripNL (c :: d :: ds) = c :: stripNL (d :: ds) := by
              unfold stripNL
              rw [List.getLast?_cons_cons]
              by_cases hg : (d :: ds).getLast? = some '\n'
              · rw [if_pos hg, if_pos hg, List.dropLast_cons₂]
              · rw [if_neg hg, if_neg hg]
            rw [hcons]
            intro hmem
            rcases List.mem_cons.mp hmem with h' | h'
            · exact h h'.symm
            · exact h₀ h'
        · exact ih l (by rw [hsk]; exact List.mem_cons_of_mem _ hl)

theorem splitKeep_singleton (x : Str) (hx : x ≠ []) (hnl : '\n' ∉ x) :
    splitKeep x = [x] := by
  induction x with
  | nil => exact absurd rfl hx
  | cons c cs ih =>
    have hc : c ≠ '\n' := fun h => hnl (h ▸ List.mem_cons_self _ _)
    simp only [splitKeep, if_neg hc]
    cases cs with
    | nil => rfl
    | cons d ds =>
      rw [ih (by simp) (fun h => hnl (List.mem_cons_of_mem _ h))]

theorem splitKeep_append_newline (x t : Str) (hnl : '\n' ∉ x) :
    splitKeep (x ++ '\n' :: t) = (x ++ ['\n']) :: splitKeep t := by
  induction x with
  | nil => simp [splitKeep]
  | cons c cs ih =>
    have hc : c ≠ '\n' := fun h => hnl (h ▸ List.mem_cons_self _ _)
    have ih' := ih (fun h => hnl (List.mem_cons_of_mem _ h))
    simp only [List.cons_append, splitKeep, if_neg hc]
    rw [show cs.append ('\n' :: t) = cs ++ '\n' :: t from rfl, ih']

theorem isBlank_stripNL (l : Str) : isBlank (stripNL l) = isBlank l := by
  rcases stripNL_eq_or l with h | h
  · exact congrArg isBlank h.symm
  · conv_rhs => rw [h]
    have hnw : isPyWhite '\n' = true := by decide
    simp [isBlank, List.all_append, hnw]

theorem mem_of_mem_stripNL {c : Char} {l : Str} (hc : c ∈ stripNL l) : c ∈ l := by
  rcases stripNL_eq_or l with h | h
  · rw [h]; exact hc
  · rw [h]; exact List.mem_append_left _ hc

/-- A line whose leading-whitespace run is at least `m` long, whose
characters are spaces, newlines or non-whitespace, and whose newline can
only be the terminator, starts with `m` literal spaces. -/
theorem take_of_le_leading (l : Str) (m : Nat)
    (hgoodl : ∀ c ∈ l, c = ' ' ∨ c = '\n' ∨ isPyWhite c = false)
    (hnl : '\n' ∉ stripNL l)
    (hm : m ≤ countLeadingWhite (stripNL l)) :
    l.take m = List.replicate m ' ' := by
  have hwhite : ∀ c ∈ (stripNL l).takeWhile isPyWhite, c = ' ' := by
    intro c hc
    have h1 : isPyWhite c = true := List.mem_takeWhile_imp hc
    have h2 : c ∈ stripNL l := (List.takeWhile_sublist _).subset hc
    rcases hgoodl c (mem_of_mem_stripNL h2) with h | h | h
    · exact h
    · exact absurd (h ▸ h2) hnl
    · rw [h1] at h; cases h
  have hrep : (stripNL l).takeWhile isPyWhite =
      List.replicate (countLeadingWhite (stripNL l)) ' ' := by
    simpa [countLeadingWhite] using List.eq_replicate_of_mem hwhite
  have hlen : countLeadingWhite (stripNL l) ≤ (stripNL l).length :=
    (List.takeWhile_sublist _).length_le
  have htake : l.take m = (stripNL l).take m := by
    rcases stripNL_eq_or l with hcase | hcase
    · exact congrArg (List.take m) hcase
    · conv_lhs => rw [hcase]
      exact List.take_append_of_le_length (le_trans hm hlen)
  rw [htake]
  conv_lhs => rw [← List.takeWhile_append_dropWhile isPyWhite (stripNL l)]
  rw [List.take_append_of_le_length (by simpa [countLeadingWhite] using hm), hrep,
    List.take_replicate]
  congr 1
  omega

/-- Pointwise-successful `mapLines` maps the lines. -/
theorem mapLines_eq_ok (f : Str → Except Str Str) (g : Str → Str) (ls : List Str)
    (h : ∀ l ∈ ls, f l = .ok (g l)) : mapLines f ls = .ok (ls.map g) := by
  induction ls with
  | nil => rfl
  | cons x xs ih =>
    simp only [mapLines]
    rw [h x (List.mem_cons_self _ _), ih (fun l hl => h l (List.mem_cons_of_mem _ hl))]
    rfl

/-- `state_checks.del_spaces` succeeds, stripping `m` spaces from every
non-blank line and keeping blank lines, as soon as every non-blank line
starts with `m` spaces. -/
theorem del_spaces_eq (s : Str) (m : Nat)
    (h : ∀ l ∈ splitKeep s, isBlank l = false → l.take m = List.replicate m ' ') :
    del_spaces s m =
      .ok (((splitKeep s).map (fun l => if isBlank l then l else l.drop m)).flatten) := by
  unfold del_spaces
  rw [mapLines_eq_ok _ (fun l => if isBlank l then l else l.drop m) _ ?hpt]
  · rfl
  case hpt =>
    intro l hl
    cases hb : isBlank l with
    | false =>
      have ht := h l hl hb
      unfold delSpacesAux
      rw [if_neg (by rw [ht]; simp [hb]), if_pos (by simp [hb])]
      simp [hb]
    | true =>
      unfold delSpacesAux
      rw [if_neg (by simp [hb]), if_neg (by simp [hb])]
      simp [hb]

/-- Same for the `state.py` revision, on inputs without blank lines. -/
theorem del_spaces_state_eq (s : Str) (m : Nat)
    (hnb : ∀ l ∈ splitKeep s, isBlank l = false)
    (h : ∀ l ∈ splitKeep s, l.take m = List.replicate m ' ') :
    del_spaces_state s m = .ok (((splitKeep s).map (fun l => l.drop m)).flatten) := by
  unfold del_spaces_state
  rw [mapLines_eq_ok _ (fun l => l.drop m) _ ?hpt]
  · rfl
  case hpt =>
    intro l hl
    have hne : l ≠ str "\n" := by
      intro hcon
      have := hnb l hl
      rw [hcon] at this
      simp [isBlank, str, isPyWhite] at this
    unfold delSpacesStateAux
    rw [if_neg (by rw [h l hl]; simp [hne]), if_pos hne]

/-- Re-splitting a newline-join of newline-free non-empty lines recovers the
lines (`"\n".join(...)` then `splitlines()` in `state_checks.unindent_block`). -/
theorem splitNoKeep_joinStr (L : List Str)
    (h : ∀ l ∈ L, l ≠ [] ∧ '\n' ∉ l) :
    splitNoKeep (joinStr (str "\n") L) = L := by
  induction L with
  | nil => rfl
  | cons x xs ih =>
    cases xs with
    | nil =>
      obtain ⟨hx, hnl⟩ := h x (List.mem_cons_self _ _)
      simp [joinStr, splitNoKeep, splitKeep_singleton x hx hnl, stripNL_of_no_newline x hnl]
    | cons y ys =>
      obtain ⟨hx, hnl⟩ := h x (List.mem_cons_self _ _)
      have hjoin : joinStr (str "\n") (x :: y :: ys) = x ++ '\n' :: joinStr (str "\n") (y :: ys) := by
        simp [joinStr, str]
      rw [hjoin]
      unfold splitNoKeep
      rw [splitKeep_append_newline x _ hnl]
      simp only [List.map_cons, stripNL_concat_newline]
      have := ih (fun l hl => h l (List.mem_cons_of_mem _ hl))
      unfold splitNoKeep at this
      rw [this]

/-! ### Claim C4: what `unindent_block` removes -/

/-- C4 (amended): on a tab-free fragment (whitespace restricted to spaces
and newlines) with at least one non-empty line, `state_checks.unindent_block`
removes exactly the minimum leading-space count taken among all NON-EMPTY
lines (whitespace-only lines included in the minimum) from every non-blank
line, and blank lines pass through unchanged. -/
theorem claim_C4_amended (s : Str)
    (hgood : ∀ c ∈ s, c = ' ' ∨ c = '\n' ∨ isPyWhite c = false)
    (hne : (splitNoKeep s).filter (fun l => l ≠ []) ≠ []) :
    ∃ m, (((splitNoKeep s).filter (fun l => l ≠ [])).map countLeadingWhite).min? = some m ∧
      (∀ l ∈ splitKeep s, isBlank l = false → l.take m = List.replicate m ' ') ∧
      unindent_block s =
        .ok (((splitKeep s).map (fun l => if isBlank l then l else l.drop m)).flatten) := by
  have htab : ¬ '\t' ∈ s := by
    intro h
    rcases hgood '\t' h with h' | h' | h' <;> exact absurd h' (by decide)
  set F := (splitNoKeep s).filter (fun l => l ≠ []) with hFdef
  have hF : ∀ l ∈ F, l ≠ [] ∧ '\n' ∉ l := by
    intro l hl
    have hmem := List.mem_filter.mp hl
    refine ⟨by simpa using hmem.2, ?_⟩
    obtain ⟨l₀, hl₀, rfl⟩ := List.mem_map.mp hmem.1
    exact newline_not_mem_stripNL s l₀ hl₀
  have hjoin : num_spaces (joinStr (str "\n") F) = F.map countLeadingWhite := by
    unfold num_spaces
    rw [splitNoKeep_joinStr F hF]
  obtain ⟨m, hmin⟩ : ∃ m, (F.map countLeadingWhite).min? = some m := by
    cases hm : (F.map countLeadingWhite).min? with
    | none =>
      rw [List.min?_eq_none_iff] at hm
      exact absurd (List.map_eq_nil_iff.mp hm) hne
    | some m => exact ⟨m, rfl⟩
  have hle : ∀ b ∈ F.map countLeadingWhite, m ≤ b := (List.min?_eq_some_iff'.mp hmin).2
  have htake : ∀ l ∈ splitKeep s, isBlank l = false → l.take m = List.replicate m ' ' := by
    intro l hl hb
    have hnl : '\n' ∉ stripNL l := newline_not_mem_stripNL s l hl
    have hgoodl : ∀ c ∈ l, c = ' ' ∨ c = '\n' ∨ isPyWhite c = false := by
      intro c hc
      refine hgood c ?_
      rw [← splitKeep_flatten s]
      exact List.mem_flatten.mpr ⟨l, hl, hc⟩
    have hnkne : stripNL l ≠ [] := by
      intro hnil
      have := isBlank_stripNL l
      rw [hnil, hb] at this
      simp [isBlank] at this
    have hnkF : stripNL l ∈ F := by
      rw [hFdef]
      exact List.mem_filter.mpr ⟨List.mem_map.mpr ⟨l, hl, rfl⟩, by simpa using hnkne⟩
    exact take_of_le_leading l m hgoodl hnl
      (hle _ (List.mem_map.mpr ⟨stripNL l, hnkF, rfl⟩))
  refine ⟨m, hmin, htake, ?_⟩
  unfold unindent_block
  rw [if_neg htab, ← hFdef, hjoin, hmin]
  exact del_spaces_eq s m htake

/-- C4 counterexample: on `"  a\n "` (a two-space-indented line followed
by a single-space blank line) the code removes one space from the
non-blank line, while the claim's rule (minimum over non-blank lines
only, here 2) would remove two: the two results differ. -/
theorem claim_C4_counterexample :
    unindent_block (str "  a\n ") = .ok (str " a\n ") ∧
      unindentClaimed (str "  a\n ") = some (str "a\n ") ∧
      str " a\n " ≠ str "a\n " := by
  refine ⟨rfl, rfl, by decide⟩

/-- Witness for `claim_C4_amended` at `"  a\nb"`. -/
theorem claim_C4_amended_witness :
    (∀ c ∈ str "  a\nb", c = ' ' ∨ c = '\n' ∨ isPyWhite c = false) ∧
      (splitNoKeep (str "  a\nb")).filter (fun l => l ≠ []) ≠ [] ∧
      (∃ m, (((splitNoKeep (str "  a\nb")).filter (fun l => l ≠ [])).map
          countLeadingWhite).min? = some m ∧
        (∀ l ∈ splitKeep (str "  a\nb"), isBlank l = false →
          l.take m = List.replicate m ' ') ∧
        unindent_block (str "  a\nb") =
          .ok (((splitKeep (str "  a\nb")).map
            (fun l => if isBlank l then l else l.drop m)).flatten)) :=
  ⟨by decide, by decide, claim_C4_amended (str "  a\nb") (by decide) (by decide)⟩

/-! ### Claim C10: the two normalizer revisions -/

/-- C10 counterexample: the two revisions of `unindent_block` are not
equivalent: on the single-line fragment `"a"` (minimum indent zero) the
`state_checks.py` revision returns the input unchanged while the
`state.py` revision raises (Python's `min` of an empty sequence, since no
line has positive indent). -/
theorem claim_C10_counterexample :
    unindent_block (str "a") = .ok (str "a") ∧
      unindent_block_state (str "a") = .error (str "min() arg is an empty sequence") :=
  ⟨rfl, rfl⟩

/-- C10 (amended): the two revisions agree — both returning the same
stripped string — on fragments whose whitespace is only spaces and
newlines and in which every line is non-blank with a positive
leading-space count; in general they differ. -/
theorem claim_C10_amended (s : Str)
    (hgood : ∀ c ∈ s, c = ' ' ∨ c = '\n' ∨ isPyWhite c = false)
    (hne : splitKeep s ≠ [])
    (hnb : ∀ l ∈ splitNoKeep s, isBlank l = false)
    (hpos : ∀ l ∈ splitNoKeep s, 0 < countLeadingWhite l) :
    unindent_block s = unindent_block_state s ∧
      ∃ v, unindent_block s = .ok v := by
  have htab : ¬ '\t' ∈ s := by
    intro h
    rcases hgood '\t' h with h' | h' | h' <;> exact absurd h' (by decide)
  have hnbK : ∀ l ∈ splitKeep s, isBlank l = false := by
    intro l hl
    rw [← isBlank_stripNL]
    exact hnb _ (List.mem_map.mpr ⟨l, hl, rfl⟩)
  have hfil : (splitNoKeep s).filter (fun l => l ≠ []) = splitNoKeep s := by
    refine List.filter_eq_self.mpr ?_
    intro l hl
    have hb := hnb l hl
    simp only [decide_eq_true_eq]
    intro hnil
    rw [hnil] at hb
    simp [isBlank] at hb
  have hF : ∀ l ∈ splitNoKeep s, l ≠ [] ∧ '\n' ∉ l := by
    intro l hl
    refine ⟨?_, ?_⟩
    · intro hnil
      have hb := hnb l hl
      rw [hnil] at hb
      simp [isBlank] at hb
    · obtain ⟨l₀, hl₀, rfl⟩ := List.mem_map.mp hl
      exact newline_not_mem_stripNL s l₀ hl₀
  have hjoin : num_spaces (joinStr (str "\n") (splitNoKeep s)) =
      (splitNoKeep s).map countLeadingWhite := by
    unfold num_spaces
    rw [splitNoKeep_joinStr _ hF]
  have hfilpos : (num_spaces s).filter (fun x => decide (0 < x)) = num_spaces s := by
    refine List.filter_eq_self.mpr ?_
    intro x hx
    obtain ⟨l, hl, rfl⟩ := List.mem_map.mp hx
    simpa using hpos l hl
  obtain ⟨m, hmin⟩ : ∃ m, ((splitNoKeep s).map countLeadingWhite).min? = some m := by
    cases hm : ((splitNoKeep s).map countLeadingWhite).min? with
    | none =>
      rw [List.min?_eq_none_iff, List.map_eq_nil_iff] at hm
      exact absurd (by simpa [splitNoKeep] using congrArg (List.map stripNL) hm) (by
        intro hcon
        exact hne (by simpa [splitNoKeep] using hcon))
    | some m => exact ⟨m, rfl⟩
  have hle : ∀ b ∈ (splitNoKeep s).map countLeadingWhite, m ≤ b :=
    (List.min?_eq_some_iff'.mp hmin).2
  have htake : ∀ l ∈ splitKeep s, l.take m = List.replicate m ' ' := by
    intro l hl
    have hnl : '\n' ∉ stripNL l := newline_not_mem_stripNL s l hl
    have hgoodl : ∀ c ∈ l, c = ' ' ∨ c = '\n' ∨ isPyWhite c = false := by
      intro c hc
      refine hgood c ?_
      rw [← splitKeep_flatten s]
      exact List.mem_flatten.mpr ⟨l, hl, hc⟩
    exact take_of_le_leading l m hgoodl hnl
      (hle _ (List.mem_map.mpr ⟨stripNL l, List.mem_map.mpr ⟨l, hl, rfl⟩, rfl⟩))
  have hmaps : (splitKeep s).map (fun l => if isBlank l then l else l.drop m) =
      (splitKeep s).map (fun l => l.drop m) := by
    refine List.map_congr_left ?_
    intro l hl
    rw [if_neg (by simp [hnbK l hl])]
  have hchecks : unindent_block s =
      .ok (((splitKeep s).map (fun l => l.drop m)).flatten) := by
    unfold unindent_block
    rw [if_neg htab, hfil, hjoin, hmin]
    show del_spaces s m = _
    rw [del_spaces_eq s m (fun l hl _ => htake l hl), hmaps]
  have hstate : unindent_block_state s =
      .ok (((splitKeep s).map (fun l => l.drop m)).flatten) := by
    unfold unindent_block_state
    have : (num_spaces s).filter (fun x => decide (0 < x)) =
        (splitNoKeep s).map countLeadingWhite := hfilpos
    rw [this, hmin]
    exact del_spaces_state_eq s m hnbK htake
  exact ⟨hchecks.trans hstate.symm, _, hchecks⟩

/-- Witness for `claim_C10_amended` at `"  a\n b"`. -/
theorem claim_C10_amended_witness :
    (∀ c ∈ str "  a\n b", c = ' ' ∨ c = '\n' ∨ isPyWhite c = false) ∧
      splitKeep (str "  a\n b") ≠ [] ∧
      (∀ l ∈ splitNoKeep (str "  a\n b"), isBlank l = false) ∧
      (∀ l ∈ splitNoKeep (str "  a\n b"), 0 < countLeadingWhite l) ∧
      (unindent_block (str "  a\n b") = unindent_block_state (str "  a\n b") ∧
        ∃ v, unindent_block (str "  a\n b") = .ok v) :=
  ⟨by decide, by decide, by decide, by decide,
    claim_C10_amended (str "  a\n b") (by decide) (by decide) (by decide) (by decide)⟩

/-! ### Claim C5: tabs and the validator -/

theorem expandTabsAux_no_tab (tabSize : Nat) (s : Str) :
    ∀ col, '\t' ∉ expandTabsAux tabSize col s := by
  induction s with
  | nil => intro col h; simp [expandTabsAux] at h
  | cons c cs ih =>
    intro col h
    by_cases hc : c = '\t'
    · subst hc
      simp only [expandTabsAux, if_pos rfl] at h
      rcases List.mem_append.mp h with h' | h'
      · have := List.eq_of_mem_replicate h'
        cases this
      · exact ih _ h'
    · by_cases hcn : c = '\n' ∨ c = '\r'
      · simp only [expandTabsAux, if_neg hc, if_pos hcn] at h
        rcases List.mem_cons.mp h with h' | h'
        · rcases hcn with rfl | rfl <;> cases h'
        · exact ih _ h'
      · simp only [expandTabsAux, if_neg hc, if_neg hcn] at h
        rcases List.mem_cons.mp h with h' | h'
        · exact hc h'.symm
        · exact ih _ h'

/-- C5 (amended): the bare `state_checks.unindent_block` raises on a tab
anywhere in its input, but `StateAttributeAnalyser.__init__` expands tabs
to 4-column stops before un-indenting, so the validator's normalisation
never sees a tab: tab indentation is auto-converted, not rejected. -/
theorem claim_C5_amended (s : Str) :
    ('\t' ∈ s → unindent_block s = .error (str "No tabs allowed: " ++ s)) ∧
      '\t' ∉ expandTabs 4 s := by
  constructor
  · intro h
    unfold unindent_block
    rw [if_pos h]
  · exact expandTabsAux_no_tab 4 s 0

/-- C5 counterexample: a routine body whose only (non-blank) line is
tab-indented normalises successfully in `StateAttributeAnalyser.__init__`
(the tab is silently expanded to four spaces and then stripped), and the
`state.py` revision used by `check_member_variables` lets an interior tab
through entirely untouched: no configuration error is raised on either
path. -/
theorem claim_C5_counterexample :
    analyserNormalize [str "\tx = 1"] = .ok (str "x = 1") ∧
      stateNormalize [str "  x = y\tz", str "  w = 1"] =
        .ok (str "x = y\tz\nw = 1") := by
  constructor <;> rfl

/-- Witness for `claim_C5_amended` at `"a\tb"`. -/
theorem claim_C5_amended_witness :
    '\t' ∈ str "a\tb" ∧
      unindent_block (str "a\tb") = .error (str "No tabs allowed: " ++ str "a\tb") ∧
      '\t' ∉ expandTabs 4 (str "a\tb") :=
  ⟨by decide, (claim_C5_amended (str "a\tb")).1 (by decide), (claim_C5_amended (str "a\tb")).2⟩

/-! ### Walker lemmas shared by the analyser claims -/

/-- Every check emitted while visiting an expression carries the ambient
statement line and one of the two message shapes. -/
theorem visitE_lineno_shape (fname : Str) (ln : Nat) :
    ∀ e : Exp, ∀ c ∈ (visitE fname ln e).2, c.lineno = ln ∧ msgShapeOK fname c
  | .name l id => by
    intro c hc
    simp [visitE] at hc
  | .attr l v a => by
    intro c hc
    simp only [visitE] at hc
    split at hc
    · rcases List.mem_append.mp hc with h | h
      · exact visitE_lineno_shape fname ln v c h
      · rcases List.mem_singleton.mp h with rfl
        exact ⟨rfl, Or.inl ⟨astUnparse v, a, rfl⟩⟩
    · exact visitE_lineno_shape fname ln v c hc
  | .call cl f args => by
    intro c hc
    simp only [visitE] at hc
    split at hc
    · rcases List.mem_append.mp hc with h | h
      · exact visitE_lineno_shape fname ln f c h
      · rcases List.mem_singleton.mp h with rfl
        exact ⟨rfl, Or.inr ⟨astUnparse (.call cl f args), rfl⟩⟩
    · exact visitE_lineno_shape fname ln f c hc
  | .strLit l s => by
    intro c hc
    simp [visitE] at hc

/-- Every check of one statement carries that statement's
offset-adjusted line and one of the two message shapes. -/
theorem stmtChecks_lineno_shape (fname : Str) (off : Nat) (st : Stm) :
    ∀ c ∈ stmtChecks fname off st, c.lineno = st.lineno + off ∧ msgShapeOK fname c := by
  intro c hc
  cases st with
  | exprStmt ln e =>
    exact visitE_lineno_shape fname (ln + off) (transformE e) c hc
  | assign ln ts v =>
    simp only [stmtChecks, transformStmt, visitStmt] at hc
    rw [List.mem_flatten] at hc
    obtain ⟨l, hl, hcl⟩ := hc
    rw [List.mem_map] at hl
    obtain ⟨r, hr, rfl⟩ := hl
    rw [List.mem_map] at hr
    obtain ⟨t, _, rfl⟩ := hr
    exact visitE_lineno_shape fname (ln + off) t c hcl

/-! ### Claim C8: recorded line numbers -/

/-- C8: every check synthesized during the walk records the
offset-adjusted line number of its (nearest) enclosing statement — the
linenos of the nested expression nodes, however deep and however
different (multi-line expressions), never reach the record. -/
theorem claim_C8 (fname : Str) (off : Nat) (st : Stm) :
    ∀ c ∈ stmtChecks fname off st, c.lineno = st.lineno + off :=
  fun c hc => (stmtChecks_lineno_shape fname off st c hc).1

/-- Witness for `claim_C8`: a statement on line 1 (offset 10) whose
nested expression nodes deliberately carry alien linenos 7 and 9; both
checks record line 11. -/
theorem claim_C8_witness :
    ((stmtChecks (str "f.py") 10
        (.exprStmt 1 (.attr 9 (.name 7 (str "self")) (str "x")))).map Chk.lineno
      = [11, 11]) ∧
    (∀ c ∈ stmtChecks (str "f.py") 10
        (.exprStmt 1 (.attr 9 (.name 7 (str "self")) (str "x"))),
      c.lineno = Stm.lineno (.exprStmt 1 (.attr 9 (.name 7 (str "self")) (str "x"))) + 10) :=
  ⟨by rfl, claim_C8 (str "f.py") 10 (.exprStmt 1 (.attr 9 (.name 7 (str "self")) (str "x")))⟩

/-! ### Claim C9: the receiver rewrite round trip -/

theorem selfName_transformE (v : Exp) : selfName (transformE v) = false := by
  cases v with
  | name ln id =>
    by_cases h : id = str "self"
    · simp [transformE, h, selfName]
    · simp only [transformE, if_neg h, selfName]
      exact beq_eq_false_iff_ne.mpr h
  | attr ln v a => rfl
  | call ln f args => rfl
  | strLit ln s => rfl

mutual
theorem reverse_transform : ∀ e : Exp, reverseE (transformE e) = e
  | .name ln id => by
    by_cases h : id = str "self"
    · subst h
      simp [transformE, reverseE, selfName]
    · simp [transformE, if_neg h, reverseE]
  | .attr ln v a => by
    simp only [transformE, reverseE]
    rw [if_neg (by simp [selfName_transformE v]), reverse_transform v]
  | .call ln f args => by
    simp only [transformE, reverseE]
    rw [reverse_transform f, reverse_transformArgs args]
  | .strLit ln s => by
    simp [transformE, reverseE]
theorem reverse_transformArgs : ∀ as : Args, reverseArgs (transformArgs as) = as
  | .nil => rfl
  | .cons e es => by
    simp only [transformArgs, reverseArgs]
    rw [reverse_transform e, reverse_transformArgs es]
end

/-- C9: the expression renderer round-trips the receiver rewrite — on
every rewritten sub-tree the reverse transformer restores the original
tree exactly, so `_ast_unparse` renders the source text as originally
written (and in particular mentions `_state` only where the original
source itself did). -/
theorem claim_C9 (e : Exp) :
    reverseE (transformE e) = e ∧ astUnparse (transformE e) = astUnparseRaw e :=
  ⟨reverse_transform e, by rw [astUnparse, reverse_transform e]⟩

/-! ### Evaluation and aggregation lemmas -/

/-- A collected failure message is either the check's own synthesized
message (the assert fired) or the message of the error raised while
evaluating the test's argument. -/
theorem evalChk_some_cases (st : PyVal) (c : Chk) (m : Str) (h : evalChk st c = some m) :
    m = c.msg ∨ evalE st c.test.scrut = .error m := by
  unfold evalChk at h
  split at h
  next objE a hct =>
    split at h
    next e he =>
      cases h
      exact Or.inr (by rw [hct]; exact he)
    next v hv =>
      split at h
      · cases h
      · cases h
        exact Or.inl rfl
  next fE hct =>
    split at h
    next e he =>
      cases h
      exact Or.inr (by rw [hct]; exact he)
    next v hv =>
      split at h
      · cases h
      · cases h
        exact Or.inl rfl

/-- Both message formats start with the literal 9-character header
`"\n  File \""`. -/
theorem msgShape_take9 (fname : Str) (c : Chk) (h : msgShapeOK fname c) :
    c.msg.take 9 = str "\n  File \"" := by
  have hstep : ∀ R : Str, (str "\n  File \"" ++ R).take 9 = str "\n  File \"" := by
    intro R
    conv_lhs => rw [show (9 : Nat) = (str "\n  File \"").length from rfl]
    exact List.take_left _ _
  rcases h with ⟨e, a, hm⟩ | ⟨e, hm⟩ <;>
    · rw [hm]
      unfold fileLineError
      simp only [List.append_assoc]
      exact hstep _

theorem joinStr_mem_infix (sep : Str) (msgs : List Str) (m : Str) (h : m ∈ msgs) :
    m <:+: joinStr sep msgs := by
  induction msgs with
  | nil => cases h
  | cons x xs ih =>
    cases xs with
    | nil =>
      rcases List.mem_singleton.mp h with rfl
      exact ⟨[], [], by simp [joinStr]⟩
    | cons y ys =>
      rcases List.mem_cons.mp h with rfl | h'
      · exact ⟨[], sep ++ joinStr sep (y :: ys), by simp [joinStr]⟩
      · obtain ⟨u, v, huv⟩ := ih h'
        exact ⟨x ++ sep ++ u, v, by rw [joinStr, ← huv]; simp [List.append_assoc]⟩

theorem infix_append_left (s m t : Str) (h : m <:+: t) : m <:+: s ++ t := by
  obtain ⟨u, v, huv⟩ := h
  exact ⟨s ++ u, v, by rw [← huv]; simp [List.append_assoc]⟩

theorem failures_map_snd (st : PyVal) (cs : List Chk) :
    (validateFailures st cs).map Prod.snd = validateMsgs st cs := by
  induction cs with
  | nil => rfl
  | cons c cs ih =>
    simp only [validateFailures, validateMsgs, List.filterMap_cons] at ih ⊢
    cases h : evalChk st c with
    | none => simpa using ih
    | some m => simpa using ih

theorem failures_fst_sublist (st : PyVal) (cs : List Chk) :
    ((validateFailures st cs).map Prod.fst).Sublist (cs.map Chk.lineno) := by
  induction cs with
  | nil => simp [validateFailures]
  | cons c cs ih =>
    simp only [validateFailures, List.filterMap_cons, List.map_cons]
    cases h : evalChk st c with
    | none => exact ih.cons _
    | some m => simpa using ih.cons₂ c.lineno

theorem pairwise_le_of_all_eq (l : List Nat) (k : Nat) (h : ∀ x ∈ l, x = k) :
    List.Pairwise (· ≤ ·) l := by
  induction l with
  | nil => constructor
  | cons x xs ih =>
    constructor
    · intro y hy
      rw [h x (List.mem_cons_self _ _), h y (List.mem_cons_of_mem _ hy)]
    · exact ih (fun z hz => h z (List.mem_cons_of_mem _ hz))

theorem analyserChecks_cons (fname : Str) (off : Nat) (st : Stm) (rest : List Stm) :
    analyserChecks fname off (st :: rest) =
      stmtChecks fname off st ++ analyserChecks fname off rest := by
  simp [analyserChecks]

theorem analyserChecks_mem (fname : Str) (off : Nat) (body : List Stm) (c : Chk)
    (hc : c ∈ analyserChecks fname off body) :
    ∃ stm ∈ body, c.lineno = stm.lineno + off ∧ msgShapeOK fname c := by
  unfold analyserChecks at hc
  rw [List.mem_flatten] at hc
  obtain ⟨l, hl, hcl⟩ := hc
  rw [List.mem_map] at hl
  obtain ⟨stm, hstm, rfl⟩ := hl
  obtain ⟨h1, h2⟩ := stmtChecks_lineno_shape fname off stm c hcl
  exact ⟨stm, hstm, h1, h2⟩

theorem analyserChecks_pairwise (fname : Str) (off : Nat) (body : List Stm)
    (h : List.Pairwise (· ≤ ·) (body.map Stm.lineno)) :
    List.Pairwise (· ≤ ·) ((analyserChecks fname off body).map Chk.lineno) := by
  induction body with
  | nil => constructor
  | cons stm rest ih =>
    rw [analyserChecks_cons, List.map_append, List.pairwise_append]
    rw [List.map_cons, List.pairwise_cons] at h
    refine ⟨?_, ih h.2, ?_⟩
    · refine pairwise_le_of_all_eq _ (stm.lineno + off) ?_
      intro x hx
      rw [List.mem_map] at hx
      obtain ⟨c, hc, rfl⟩ := hx
      exact (stmtChecks_lineno_shape fname off stm c hc).1
    · intro a ha b hb
      rw [List.mem_map] at ha hb
      obtain ⟨c, hc, rfl⟩ := ha
      obtain ⟨c', hc', rfl⟩ := hb
      rw [(stmtChecks_lineno_shape fname off stm c hc).1]
      obtain ⟨stm', hstm', h1, _⟩ := analyserChecks_mem fname off rest c' hc'
      rw [h1]
      exact Nat.add_le_add_right (h.1 _ (List.mem_map.mpr ⟨stm', hstm', rfl⟩)) off

/-! ### Claim C1: the aggregated error -/

/-- C1: when a routine produces two or more failures, `_compile`
evaluates every collected check (each failing check contributes its
recorded failure), failures are caught one by one and never stop the
loop, and exactly one aggregated error is raised whose text is the
literal header `"\nIncorrect call(s):"` followed by the newline-join of
every failure message, with failure line numbers in nondecreasing
(source) order. -/
theorem claim_C1 (st : PyVal) (fname : Str) (off : Nat) (body : List Stm)
    (hsorted : List.Pairwise (· ≤ ·) (body.map Stm.lineno))
    (hfail : 2 ≤ (validateFailures st (analyserChecks fname off body)).length) :
    compileResult st (analyserChecks fname off body) =
      some (str "\nIncorrect call(s):" ++ joinStr (str "\n")
        ((validateFailures st (analyserChecks fname off body)).map Prod.snd)) ∧
    (∀ p ∈ validateFailures st (analyserChecks fname off body),
      p.2 <:+: str "\nIncorrect call(s):" ++ joinStr (str "\n")
        ((validateFailures st (analyserChecks fname off body)).map Prod.snd)) ∧
    List.Pairwise (· ≤ ·)
      ((validateFailures st (analyserChecks fname off body)).map Prod.fst) ∧
    (∀ c ∈ analyserChecks fname off body, ∀ m, evalChk st c = some m →
      (c.lineno, m) ∈ validateFailures st (analyserChecks fname off body)) := by
  set cs := analyserChecks fname off body with hcs
  have hmsgs : (validateFailures st cs).map Prod.snd = validateMsgs st cs :=
    failures_map_snd st cs
  have hnonempty : validateMsgs st cs ≠ [] := by
    intro hnil
    rw [← hmsgs, List.map_eq_nil_iff] at hnil
    rw [hnil] at hfail
    simp at hfail
  refine ⟨?_, ?_, ?_, ?_⟩
  · unfold compileResult
    rw [if_neg hnonempty, hmsgs]
  · intro p hp
    refine infix_append_left _ _ _ ?_
    refine joinStr_mem_infix _ _ _ ?_
    exact List.mem_map.mpr ⟨p, hp, rfl⟩
  · exact (analyserChecks_pairwise fname off body hsorted).sublist
      (failures_fst_sublist st cs)
  · intro c hc m hm
    exact List.mem_filterMap.mpr ⟨c, hc, by rw [hm]; rfl⟩

/-- Witness for `claim_C1`: a missing attribute on line 1 and a
non-callable call on line 2 (offset 10): both hypotheses hold and the
aggregated error is raised. -/
theorem claim_C1_witness :
    List.Pairwise (· ≤ ·)
      (([Stm.exprStmt 1 (.attr 1 (.name 1 (str "self")) (str "missing")),
         Stm.exprStmt 2 (.call 2 (.attr 2 (.name 2 (str "self")) (str "notfn")) .nil)]).map
        Stm.lineno) ∧
    2 ≤ (validateFailures (.obj (str "S") [(str "notfn", .pstr (str ""))])
      (analyserChecks (str "f.py") 10
        [Stm.exprStmt 1 (.attr 1 (.name 1 (str "self")) (str "missing")),
         Stm.exprStmt 2 (.call 2 (.attr 2 (.name 2 (str "self")) (str "notfn")) .nil)])).length ∧
    (compileResult (.obj (str "S") [(str "notfn", .pstr (str ""))])
      (analyserChecks (str "f.py") 10
        [Stm.exprStmt 1 (.attr 1 (.name 1 (str "self")) (str "missing")),
         Stm.exprStmt 2 (.call 2 (.attr 2 (.name 2 (str "self")) (str "notfn")) .nil)])).isSome
      = true :=
  ⟨by decide, by decide, by
    rw [(claim_C1 (.obj (str "S") [(str "notfn", .pstr (str ""))]) (str "f.py") 10
      [Stm.exprStmt 1 (.attr 1 (.name 1 (str "self")) (str "missing")),
       Stm.exprStmt 2 (.call 2 (.attr 2 (.name 2 (str "self")) (str "notfn")) .nil)]
      (by decide) (by decide)).1]
    rfl⟩

/-! ### Claim C2: per-site failure message format -/

/-- Every check emitted while visiting the RECEIVER-REWRITTEN form of an
expression satisfies the pinned message discipline: using the round trip
`reverseE (transformE v) = v`, each `<expr>` hole is shown to be the
pre-rewrite rendering of exactly the expression the test accesses, and
each `<name>` hole the accessed attribute. -/
theorem visitE_transform_pin (fname : Str) (ln : Nat) :
    ∀ e : Exp, ∀ c ∈ (visitE fname ln (transformE e)).2, msgPinOK fname c
  | .name nl id => by
    intro c hc
    by_cases h : id = str "self"
    · subst h
      simp only [transformE, if_pos rfl] at hc
      simp only [visitE] at hc
      simp at hc
      subst hc
      refine Or.inl ⟨nl, rfl, ?_⟩
      simp [astUnparse, reverseE, List.append_assoc]
    · simp only [transformE, if_neg h, visitE] at hc
      simp at hc
  | .attr al v a => by
    intro c hc
    simp only [transformE] at hc
    simp only [visitE] at hc
    split at hc
    · rcases List.mem_append.mp hc with hmem | hmem
      · exact visitE_transform_pin fname ln v c hmem
      · rcases List.mem_singleton.mp hmem with rfl
        refine Or.inr (Or.inl ⟨v, a, rfl, ?_⟩)
        have hrt : astUnparse (transformE v) = astUnparseRaw v := by
          rw [astUnparse, reverse_transform v]
        rw [← hrt]
    · exact visitE_transform_pin fname ln v c hc
  | .call cl f args => by
    intro c hc
    simp only [transformE] at hc
    simp only [visitE] at hc
    split at hc
    · rcases List.mem_append.mp hc with hmem | hmem
      · exact visitE_transform_pin fname ln f c hmem
      · rcases List.mem_singleton.mp hmem with rfl
        refine Or.inr (Or.inr ⟨cl, f, args, rfl, ?_⟩)
        have hrt : astUnparse (transformE (.call cl f args)) =
            astUnparseRaw (.call cl f args) := by
          rw [astUnparse, reverse_transform (.call cl f args)]
        rw [← hrt]
        rfl
    · exact visitE_transform_pin fname ln f c hc
  | .strLit sl s => by
    intro c hc
    simp [transformE, visitE] at hc

/-- The pinned message discipline holds for every check of a statement
(both an `Expr` statement's value and every `Assign` target are walked
in receiver-rewritten form). -/
theorem stmtChecks_pin (fname : Str) (off : Nat) (st : Stm) :
    ∀ c ∈ stmtChecks fname off st, msgPinOK fname c := by
  intro c hc
  cases st with
  | exprStmt ln e => exact visitE_transform_pin fname (ln + off) e c hc
  | assign ln ts v =>
    simp only [stmtChecks, transformStmt, visitStmt] at hc
    rw [List.mem_flatten] at hc
    obtain ⟨l, hl, hcl⟩ := hc
    rw [List.mem_map] at hl
    obtain ⟨r, hr, rfl⟩ := hl
    rw [List.mem_map] at hr
    obtain ⟨t, ht, rfl⟩ := hr
    rw [List.mem_map] at ht
    obtain ⟨t₀, _, rfl⟩ := ht
    exact visitE_transform_pin fname (ln + off) t₀ c hcl

/-- The pinned message discipline holds for every collected check. -/
theorem analyserChecks_pin (fname : Str) (off : Nat) (body : List Stm) :
    ∀ c ∈ analyserChecks fname off body, msgPinOK fname c := by
  intro c hc
  unfold analyserChecks at hc
  rw [List.mem_flatten] at hc
  obtain ⟨l, hl, hcl⟩ := hc
  rw [List.mem_map] at hl
  obtain ⟨stm, _, rfl⟩ := hl
  exact stmtChecks_pin fname off stm c hcl

/-- A pinned message also starts with the literal 9-character header
`"\n  File \""`. -/
theorem msgPin_take9 (fname : Str) (c : Chk) (h : msgPinOK fname c) :
    c.msg.take 9 = str "\n  File \"" := by
  have hstep : ∀ R : Str, (str "\n  File \"" ++ R).take 9 = str "\n  File \"" := by
    intro R
    conv_lhs => rw [show (9 : Nat) = (str "\n  File \"").length from rfl]
    exact List.take_left _ _
  rcases h with ⟨ln', _, hm⟩ | ⟨v, a, _, hm⟩ | ⟨cl, f, args, _, hm⟩ <;>
    · rw [hm]
      unfold fileLineError
      simp only [List.append_assoc]
      exact hstep _

/-- C2 (amended): every message the walker SYNTHESIZES is the
`"\n  File \""` header followed by one of the two exact sentences, with
both holes pinned: the `<expr>` hole is the reverse-transformed
(pre-rewrite) rendering of precisely the expression the check's test
accesses — the bare receiver for the inserted `_state` lookup,
`astUnparseRaw v` for the attribute check storing `transformE v`, the
full original call expression for the callability check storing its
rewritten callee — and the `<name>` hole is the accessed attribute of
the test.  A RECORDED failure, however, is whatever exception the
evaluation raised: the check's own formatted message when the assert
fired, or the raw runtime error text when evaluating the check's
argument raised. -/
theorem claim_C2_amended (st : PyVal) (fname : Str) (off : Nat) (body : List Stm) :
    (∀ c ∈ analyserChecks fname off body,
      msgPinOK fname c ∧ c.msg.take 9 = str "\n  File \"") ∧
    (∀ m ∈ validateMsgs st (analyserChecks fname off body),
      ∃ c ∈ analyserChecks fname off body, evalChk st c = some m ∧
        (m = c.msg ∨ evalE st c.test.scrut = .error m)) := by
  constructor
  · intro c hc
    have hpin := analyserChecks_pin fname off body c hc
    exact ⟨hpin, msgPin_take9 fname c hpin⟩
  · intro m hm
    obtain ⟨c, hc, hev⟩ := List.mem_filterMap.mp hm
    exact ⟨c, hc, hev, evalChk_some_cases st c m hev⟩

/-- C2 counterexample: on `self.foo.bar` with `foo` missing, the check
for `.bar` raises `AttributeError` while evaluating `self._state.foo`,
and the recorded failure is Python's own message
`'TestState2' object has no attribute 'foo'`, which does not carry the
claimed `\n  File "<path>", line <n>` prefix. -/
theorem claim_C2_counterexample :
    str "'TestState2' object has no attribute 'foo'" ∈
      validateMsgs (.obj (str "TestState2") [(str "string1", .pstr (str "1"))])
        (analyserChecks (str "f.py") 10
          [.exprStmt 1 (.attr 1 (.attr 1 (.name 1 (str "self")) (str "foo")) (str "bar"))]) ∧
    (str "'TestState2' object has no attribute 'foo'").take 9 ≠ str "\n  File \"" := by
  constructor
  · decide
  · decide

/-- Witness for `claim_C2_amended` on the same fixture. -/
theorem claim_C2_amended_witness :
    (∀ c ∈ analyserChecks (str "f.py") 10
        [.exprStmt 1 (.attr 1 (.attr 1 (.name 1 (str "self")) (str "foo")) (str "bar"))],
      msgPinOK (str "f.py") c ∧ c.msg.take 9 = str "\n  File \"") ∧
    (∀ m ∈ validateMsgs (.obj (str "TestState2") [(str "string1", .pstr (str "1"))])
        (analyserChecks (str "f.py") 10
          [.exprStmt 1 (.attr 1 (.attr 1 (.name 1 (str "self")) (str "foo")) (str "bar"))]),
      ∃ c ∈ analyserChecks (str "f.py") 10
          [.exprStmt 1 (.attr 1 (.attr 1 (.name 1 (str "self")) (str "foo")) (str "bar"))],
        evalChk (.obj (str "TestState2") [(str "string1", .pstr (str "1"))]) c = some m ∧
          (m = c.msg ∨
            evalE (.obj (str "TestState2") [(str "string1", .pstr (str "1"))]) c.test.scrut =
              .error m)) :=
  claim_C2_amended (.obj (str "TestState2") [(str "string1", .pstr (str "1"))]) (str "f.py") 10
    [.exprStmt 1 (.attr 1 (.attr 1 (.name 1 (str "self")) (str "foo")) (str "bar"))]

/-! ### Claim C3: the one-shot validated-flag gate -/

/-- C3: `check_member_variables` is a one-shot gate on
`_member_variables_checked`: when every collected check evaluates
successfully (every referenced attribute exists and every call target is
callable) it returns normally and sets the flag; when any check fails,
the aggregated error is raised before the flag assignment, which
therefore stays `False`. -/
theorem claim_C3 (s : StateRec) (fname : Str) (off : Nat) (body : List Stm)
    (h0 : s.memberVariablesChecked = false) :
    (validateMsgs (subjectVal s) (analyserChecks fname off body) = [] →
      check_member_variables s fname off body =
        (none, { s with memberVariablesChecked := true })) ∧
    (validateMsgs (subjectVal s) (analyserChecks fname off body) ≠ [] →
      ∃ m, check_member_variables s fname off body = (some m, s) ∧
        (check_member_variables s fname off body).2.memberVariablesChecked = false) := by
  constructor
  · intro h
    unfold check_member_variables compileResult
    rw [h]
    rfl
  · intro h
    unfold check_member_variables compileResult
    rw [if_neg h]
    exact ⟨_, rfl, by
      show (_, s).2.memberVariablesChecked = false
      exact h0⟩

/-- Witness for `claim_C3`: the repository's `TestState1` fixture
(`self.get_string1(); self.string1 = ""` against an object that has a
callable `get_string1` and a `string1`) validates successfully and the
flag flips; the same body against `TestState3` (`get_string1` bound to a
plain string) fails and leaves the flag `False`. -/
theorem claim_C3_witness :
    (StateRec.mk (str "TestState1")
        [(str "string1", .pstr (str "1")), (str "get_string1", .func (.pstr (str "1")))]
        false).memberVariablesChecked = false ∧
    validateMsgs
        (subjectVal (StateRec.mk (str "TestState1")
          [(str "string1", .pstr (str "1")), (str "get_string1", .func (.pstr (str "1")))]
          false))
        (analyserChecks (str "f.py") 10
          [.exprStmt 1 (.call 1 (.attr 1 (.name 1 (str "self")) (str "get_string1")) .nil),
           .assign 2 [.attr 2 (.name 2 (str "self")) (str "string1")] (.strLit 2 [])]) = [] ∧
    check_member_variables
        (StateRec.mk (str "TestState1")
          [(str "string1", .pstr (str "1")), (str "get_string1", .func (.pstr (str "1")))]
          false)
        (str "f.py") 10
        [.exprStmt 1 (.call 1 (.attr 1 (.name 1 (str "self")) (str "get_string1")) .nil),
         .assign 2 [.attr 2 (.name 2 (str "self")) (str "string1")] (.strLit 2 [])] =
      (none,
        { StateRec.mk (str "TestState1")
            [(str "string1", .pstr (str "1")), (str "get_string1", .func (.pstr (str "1")))]
            false with
          memberVariablesChecked := true }) :=
  ⟨rfl, by decide,
    (claim_C3
      (StateRec.mk (str "TestState1")
        [(str "string1", .pstr (str "1")), (str "get_string1", .func (.pstr (str "1")))]
        false)
      (str "f.py") 10
      [.exprStmt 1 (.call 1 (.attr 1 (.name 1 (str "self")) (str "get_string1")) .nil),
       .assign 2 [.attr 2 (.name 2 (str "self")) (str "string1")] (.strLit 2 [])]
      rfl).1 (by decide)⟩

/-! ### Claim C6: assignment targets -/

/-- A check that fails keeps the collected-message list non-empty, hence
`_compile` raises. -/
theorem compileResult_ne_none_of_fail (st : PyVal) (cs : List Chk) (c : Chk) (m : Str)
    (hc : c ∈ cs) (h : evalChk st c = some m) :
    compileResult st cs ≠ none := by
  have hmem : m ∈ validateMsgs st cs := List.mem_filterMap.mpr ⟨c, hc, h⟩
  have hne : validateMsgs st cs ≠ [] := by
    intro hnil
    rw [hnil] at hmem
    cases hmem
  unfold compileResult
  rw [if_neg hne]
  intro hcon
  cases hcon

/-- C6 counterexample (the repository's own `TestState2` fixture): for
`self.list1 = ...` with `list1` undeclared, the walker synthesizes two
checks for the assignment TARGET and validation raises the aggregated
error — an attribute appearing solely as an assignment target does
produce a check and does fail `validate`. -/
theorem claim_C6_counterexample :
    (analyserChecks (str "f.py") 10
      [.assign 1 [.attr 1 (.name 1 (str "self")) (str "list1")] (.strLit 1 [])]).length = 2 ∧
    (compileResult (.obj (str "TestState2") [(str "string1", .pstr (str "1"))])
      (analyserChecks (str "f.py") 10
        [.assign 1 [.attr 1 (.name 1 (str "self")) (str "list1")]
          (.strLit 1 [])])).isSome = true := by
  constructor
  · rfl
  · decide

/-- C6 (amended): assignment targets ARE visited — `targets` is the
first field of `Assign`, so `generic_visit` folds over it — and a write
`self.<a> = ...` to an attribute the subject does not have produces a
`hasattr` check that fails, making `validate` raise (whatever the
right-hand side is). -/
theorem claim_C6_amended (fname : Str) (off sln aln nln : Nat) (rhs : Exp)
    (cls : List Char) (attrs : List (List Char × PyVal)) (a : List Char)
    (hmiss : lookupAttr (.obj cls attrs) a = none) :
    analyserChecks fname off
      [.assign sln [.attr aln (.name nln (str "self")) a] rhs] ≠ [] ∧
    compileResult (.obj cls attrs)
      (analyserChecks fname off
        [.assign sln [.attr aln (.name nln (str "self")) a] rhs]) ≠ none := by
  have hlist : analyserChecks fname off
      [.assign sln [.attr aln (.name nln (str "self")) a] rhs] =
      [⟨.attrTest (.name nln (str "self")) (str "_state"),
        fileLineError fname (sln + off) ++ str "'" ++
          astUnparse (.name nln (str "self")) ++
          str "' has no attribute '" ++ str "_state" ++ str "'", sln + off⟩,
       ⟨.attrTest (.attr nln (.name nln (str "self")) (str "_state")) a,
        fileLineError fname (sln + off) ++ str "'" ++
          astUnparse (.attr nln (.name nln (str "self")) (str "_state")) ++
          str "' has no attribute '" ++ a ++ str "'", sln + off⟩] := rfl
  have e2 : evalE (PyVal.obj cls attrs)
      (.attr nln (.name nln (str "self")) (str "_state")) =
      .ok (.obj cls attrs) := rfl
  have hfail : evalChk (PyVal.obj cls attrs)
      ⟨.attrTest (.attr nln (.name nln (str "self")) (str "_state")) a,
        fileLineError fname (sln + off) ++ str "'" ++
          astUnparse (.attr nln (.name nln (str "self")) (str "_state")) ++
          str "' has no attribute '" ++ a ++ str "'", sln + off⟩ =
      some (fileLineError fname (sln + off) ++ str "'" ++
          astUnparse (.attr nln (.name nln (str "self")) (str "_state")) ++
          str "' has no attribute '" ++ a ++ str "'") := by
    unfold evalChk
    simp only [e2]
    rw [hmiss]
    rfl
  constructor
  · rw [hlist]
    intro hcon
    cases hcon
  · refine compileResult_ne_none_of_fail _ _ _ _ ?_ hfail
    rw [hlist]
    exact List.mem_cons_of_mem _ (List.mem_cons_self _ _)

/-- Witness for `claim_C6_amended`: `self.list1 = ""` against an object
without `list1`. -/
theorem claim_C6_amended_witness :
    lookupAttr (.obj (str "TestState2") [(str "string1", .pstr (str "1"))])
      (str "list1") = none ∧
    (analyserChecks (str "f.py") 10
      [.assign 1 [.attr 1 (.name 1 (str "self")) (str "list1")] (.strLit 1 [])] ≠ [] ∧
    compileResult (.obj (str "TestState2") [(str "string1", .pstr (str "1"))])
      (analyserChecks (str "f.py") 10
        [.assign 1 [.attr 1 (.name 1 (str "self")) (str "list1")] (.strLit 1 [])]) ≠ none) :=
  ⟨rfl,
    claim_C6_amended (str "f.py") 10 1 1 1 (.strLit 1 [])
      (str "TestState2") [(str "string1", .pstr (str "1"))] (str "list1") rfl⟩

/-! ### Claim C7: what the traversal reaches -/

/-- C7 counterexample: in `self.g(self.missing)` with `g` a real method
and `missing` absent, the argument's attribute access is never visited:
only three checks are emitted (the `_state` and `g` lookups on the
`func` chain plus the call's own callability check) — their tests are
exactly those of the argument-free call `self.g()` — and validation
succeeds even though `self.missing` would fail. -/
theorem claim_C7_counterexample :
    (analyserChecks (str "f.py") 10
      [.exprStmt 1 (.call 1 (.attr 1 (.name 1 (str "self")) (str "g"))
        (.cons (.attr 1 (.name 1 (str "self")) (str "missing")) .nil))]).length = 3 ∧
    (analyserChecks (str "f.py") 10
        [.exprStmt 1 (.call 1 (.attr 1 (.name 1 (str "self")) (str "g"))
          (.cons (.attr 1 (.name 1 (str "self")) (str "missing")) .nil))]).map Chk.test =
      (analyserChecks (str "f.py") 10
        [.exprStmt 1 (.call 1 (.attr 1 (.name 1 (str "self")) (str "g")) .nil)]).map
        Chk.test ∧
    compileResult (.obj (str "S") [(str "g", .func (.pstr (str "")))])
      (analyserChecks (str "f.py") 10
        [.exprStmt 1 (.call 1 (.attr 1 (.name 1 (str "self")) (str "g"))
          (.cons (.attr 1 (.name 1 (str "self")) (str "missing")) .nil))]) = none := by
  refine ⟨rfl, by decide, by decide⟩

/-- C7 (amended): the traversal processes only each node's FIRST field:
a call's arguments contribute no checks of their own (the tests emitted
for a call are those of its `func` sub-tree plus the call's own
callability test, whatever the arguments), and an assignment's
right-hand side is ignored entirely; but an enclosing attribute access
is still checked when its `value` chain reported the receiver — the
node's own check is appended after its child's. -/
theorem claim_C7_amended (fname : Str) (ln cl al sln off : Nat) (f v : Exp)
    (args args' : Args) (a : List Char) (ts : List Exp) (rhs rhs' : Exp) :
    ((visitE fname ln (.call cl f args)).2.map Chk.test =
      (visitE fname ln (.call cl f args')).2.map Chk.test) ∧
    (stmtChecks fname off (.assign sln ts rhs) =
      stmtChecks fname off (.assign sln ts rhs')) ∧
    ((visitE fname ln v).1 = true →
      ∃ c, (visitE fname ln (.attr al v a)).2 = (visitE fname ln v).2 ++ [c] ∧
        c.test = .attrTest v a) := by
  refine ⟨?_, rfl, ?_⟩
  · simp only [visitE]
    cases hr : (visitE fname ln f).1 <;> simp [hr, List.map_append]
  · intro h
    refine ⟨⟨.attrTest v a,
      fileLineError fname ln ++ str "'" ++ astUnparse v ++
        str "' has no attribute '" ++ a ++ str "'", ln⟩, ?_, rfl⟩
    simp [visitE, h]

/-- Witness for `claim_C7_amended`: `self.g(self.missing)` versus
`self.g()`, and the enclosing access `self.x` over the bare receiver. -/
theorem claim_C7_amended_witness :
    (visitE (str "f.py") 11 (.name 1 (str "self"))).1 = true ∧
    ((visitE (str "f.py") 11 (.call 1 (.attr 1 (.name 1 (str "self")) (str "g"))
        (.cons (.attr 1 (.name 1 (str "self")) (str "missing")) .nil))).2.map Chk.test =
      (visitE (str "f.py") 11 (.call 1 (.attr 1 (.name 1 (str "self")) (str "g"))
        .nil)).2.map Chk.test) ∧
    (stmtChecks (str "f.py") 10 (.assign 1 [.attr 1 (.name 1 (str "self")) (str "x")]
        (.strLit 1 (str "a"))) =
      stmtChecks (str "f.py") 10 (.assign 1 [.attr 1 (.name 1 (str "self")) (str "x")]
        (.strLit 1 (str "b")))) ∧
    ((visitE (str "f.py") 11 (.name 1 (str "self"))).1 = true →
      ∃ c, (visitE (str "f.py") 11 (.attr 1 (.name 1 (str "self")) (str "x"))).2 =
          (visitE (str "f.py") 11 (.name 1 (str "self"))).2 ++ [c] ∧
        c.test = .attrTest (.name 1 (str "self")) (str "x")) :=
  ⟨by decide,
    (claim_C7_amended (str "f.py") 11 1 1 1 10 (.attr 1 (.name 1 (str "self")) (str "g"))
      (.name 1 (str "self")) (.cons (.attr 1 (.name 1 (str "self")) (str "missing")) .nil)
      .nil (str "x") [.attr 1 (.name 1 (str "self")) (str "x")]
      (.strLit 1 (str "a")) (.strLit 1 (str "b"))).1,
    (claim_C7_amended (str "f.py") 11 1 1 1 10 (.attr 1 (.name 1 (str "self")) (str "g"))
      (.name 1 (str "self")) (.cons (.attr 1 (.name 1 (str "self")) (str "missing")) .nil)
      .nil (str "x") [.attr 1 (.name 1 (str "self")) (str "x")]
      (.strLit 1 (str "a")) (.strLit 1 (str "b"))).2.1,
    (claim_C7_amended (str "f.py") 11 1 1 1 10 (.attr 1 (.name 1 (str "self")) (str "g"))
      (.name 1 (str "self")) (.cons (.attr 1 (.name 1 (str "self")) (str "missing")) .nil)
      .nil (str "x") [.attr 1 (.name 1 (str "self")) (str "x")]
      (.strLit 1 (str "a")) (.strLit 1 (str "b"))).2.2⟩

end Smach
